import Mathlib

/-
Shallow embedding of the view-synchronization core of src/src/App.jsx.

The map rendering engine and the remote API are external collaborators; they
are modelled as explicit inputs (an expansion oracle for the cluster index,
an Except-valued response for each remote call).  Machine data is modelled
with Nat/Int and String; fallible asynchronous calls are modelled with
Except, with an unguarded await translated as error propagation.
-/

/-- One geocoded tree record, as the properties of a rendered point feature
(App.jsx uses properties.location_id and properties.common_name). -/
structure TreePoint where
  location_id : Nat
  common_name : String
deriving DecidableEq

/-- A rendered map feature: either an unclustered point or a cluster handle
carrying its cluster identifier. -/
inductive Feature where
  | point (p : TreePoint)
  | cluster (cluster_id : Nat)
deriving DecidableEq

/-- The cluster index of the rendering engine: getClusterLeaves either fails
(stale or missing cluster identifier) or returns the leaves, possibly null. -/
abbrev ClusterIndex := Nat → Except String (Option (List TreePoint))

/-- App.jsx getClusterFeatures: wraps getClusterLeaves in a promise, rejecting
on error and resolving leaves-or-empty (the JS expression leaves or []). -/
def getClusterFeatures (idx : ClusterIndex) (clusterId : Nat) : Except String (List TreePoint) :=
  match idx clusterId with
  | Except.error e => Except.error e
  | Except.ok leaves => Except.ok (leaves.getD [])

/-- The expansion used inside updateVisibleTrees: a cluster is expanded via
getClusterFeatures, a point is its own singleton expansion. -/
def featureLeaves (idx : ClusterIndex) : Feature → Except String (List TreePoint)
  | Feature.point p => Except.ok [p]
  | Feature.cluster cid => getClusterFeatures idx cid

/-- The leaves of a feature when its expansion succeeds, else []. -/
def leavesD (idx : ClusterIndex) (f : Feature) : List TreePoint :=
  match featureLeaves idx f with
  | Except.ok l => l
  | Except.error _ => []

/-- The leaves of a cluster identifier when its expansion succeeds, else []. -/
def clusterLeavesD (idx : ClusterIndex) (cid : Nat) : List TreePoint :=
  match getClusterFeatures idx cid with
  | Except.ok l => l
  | Except.error _ => []

/-- The category-to-features accumulator of updateVisibleTrees: a JS object
with string keys in insertion order, modelled as an association list. -/
abbrev Groups := List (String × List Feature)

/-- One push into the accumulator: `if (!groups[c]) groups[c] = [];
groups[c].push(feature)` from App.jsx line 88. -/
def pushGroup : Groups → String → Feature → Groups
  | [], c, f => [(c, [f])]
  | (c0, fs) :: rest, c, f =>
    if c0 = c then (c0, fs ++ [f]) :: rest else (c0, fs) :: pushGroup rest c f

/-- Record one rendered feature under the category of each of its leaves
(the inner features.forEach of updateVisibleTrees). -/
def addFeature (g : Groups) (f : Feature) (leaves : List TreePoint) : Groups :=
  leaves.foldl (fun acc p => pushGroup acc p.common_name f) g

/-- The sequential reduce of updateVisibleTrees over deduplicated points and
rendered clusters.  An expansion failure rejects the whole chain: there is no
catch around the await of getClusterFeatures in the source. -/
def aggregateGroups (idx : ClusterIndex) : List Feature → Groups → Except String Groups
  | [], g => Except.ok g
  | f :: rest, g =>
    match featureLeaves idx f with
    | Except.error e => Except.error e
    | Except.ok leaves => aggregateGroups idx rest (addFeature g f leaves)

/-- Stable insertion for the JS sort with comparator
(a, b) => b[1].length - a[1].length: descending by list length. -/
def insertGroup (x : String × List Feature) : Groups → Groups
  | [] => [x]
  | y :: ys => if y.2.length ≤ x.2.length then x :: y :: ys else y :: insertGroup x ys

/-- The final sort of updateVisibleTrees (descending by length, stable). -/
def sortGroups (g : Groups) : Groups := g.foldr insertGroup []

/-- Helper for point deduplication, keeping the first feature per id. -/
def dedupeByLocAux (seen : List Nat) : List TreePoint → List TreePoint
  | [] => []
  | p :: rest =>
    if p.location_id ∈ seen then dedupeByLocAux seen rest
    else p :: dedupeByLocAux (p.location_id :: seen) rest

/-- Point deduplication of updateVisibleTrees lines 80-82: unique
location_ids in first-occurrence order, each mapped to its first feature. -/
def dedupeByLoc (pts : List TreePoint) : List TreePoint := dedupeByLocAux [] pts

/-- trees.concat(clusters): deduplicated rendered points followed by the
rendered clusters. -/
def combinedFeatures (pts : List TreePoint) (cls : List Nat) : List Feature :=
  (dedupeByLoc pts).map Feature.point ++ cls.map Feature.cluster

/-- App.jsx updateVisibleTrees lines 78-95, up to the value passed to
setVisibleTrees: dedupe points, fold the expansion of every feature into the
category accumulator, sort descending by bucket length. -/
def updateVisibleTrees (idx : ClusterIndex) (pts : List TreePoint) (cls : List Nat) :
    Except String Groups :=
  match aggregateGroups idx (combinedFeatures pts cls) [] with
  | Except.error e => Except.error e
  | Except.ok g => Except.ok (sortGroups g)

/-- Number of leaves of a feature carrying category c (when its expansion
succeeds). -/
def mcount (idx : ClusterIndex) (f : Feature) (c : String) : Nat :=
  (leavesD idx f).countP (fun p => p.common_name == c)

/-- The bucket contribution of a feature list for category c: each feature
repeated once per matching leaf, in traversal order. -/
def contribs (idx : ClusterIndex) (c : String) : List Feature → List Feature
  | [] => []
  | f :: rest => List.replicate (mcount idx f c) f ++ contribs idx c rest

/-- Lookup of a category bucket in the accumulator (first entry wins). -/
def getG (c : String) : Groups → List Feature
  | [] => []
  | (c0, fs) :: rest => if c0 = c then fs else getG c rest

/-- The keys of the accumulator, in order. -/
def keysG (g : Groups) : List String := g.map (fun e => e.1)

/-- The display order of the sidebar: descending by bucket length. -/
def byCountDesc (a b : String × List Feature) : Prop := b.2.length ≤ a.2.length

instance (a b : String × List Feature) : Decidable (byCountDesc a b) :=
  inferInstanceAs (Decidable (b.2.length ≤ a.2.length))

/-- Whether an Except-valued computation succeeded. -/
def isOkE {α : Type} : Except String α → Bool
  | Except.ok _ => true
  | Except.error _ => false

/-- A value inside a mapbox "in" filter expression: the source mixes string
literals (the "" sentinel, a category name) and numeric cluster ids. -/
inductive FilterVal where
  | str (s : String)
  | num (n : Nat)
deriving DecidableEq

/-- A paint filter of the form ["in", fieldName, v1, v2, ...]. -/
structure LayerFilter where
  fieldName : String
  vals : List FilterVal
deriving DecidableEq

/-- A point with the given common_name matches the filter. -/
def LayerFilter.matchesStr (f : LayerFilter) (s : String) : Prop := FilterVal.str s ∈ f.vals

/-- A cluster with the given cluster_id matches the filter. -/
def LayerFilter.matchesNum (f : LayerFilter) (n : Nat) : Prop := FilterVal.num n ∈ f.vals

instance (f : LayerFilter) (s : String) : Decidable (f.matchesStr s) :=
  inferInstanceAs (Decidable (FilterVal.str s ∈ f.vals))

instance (f : LayerFilter) (n : Nat) : Decidable (f.matchesNum n) :=
  inferInstanceAs (Decidable (FilterVal.num n ∈ f.vals))

/-- The pair of filters ["in", "common_name", ""] and ["in", "cluster_id", ""]
installed when no category is selected (App.jsx lines 164-165). -/
def emptyFilters : LayerFilter × LayerFilter :=
  (LayerFilter.mk "common_name" [FilterVal.str ""],
   LayerFilter.mk "cluster_id" [FilterVal.str ""])

/-- The for-loop of highlightTree: collect, in order, the identifiers of
rendered clusters whose expansion contains a leaf of the selected category.
An expansion failure rejects (the await is unguarded in the source). -/
def collectHighlightIds (idx : ClusterIndex) (treeName : String) :
    List Nat → Except String (List Nat)
  | [] => Except.ok []
  | cid :: rest =>
    match getClusterFeatures idx cid with
    | Except.error e => Except.error e
    | Except.ok leaves =>
      match collectHighlightIds idx treeName rest with
      | Except.error e => Except.error e
      | Except.ok tail =>
        Except.ok (if leaves.any (fun l => l.common_name == treeName) then cid :: tail else tail)

/-- App.jsx highlightTree lines 149-167: for a truthy selected name, the point
overlay gets ["in", "common_name", name] and the cluster overlay gets
["in", "cluster_id", ...matchingIds]; otherwise (null or the falsy empty
string) both overlays get the "" sentinel filters. -/
def highlightTree (idx : ClusterIndex) (renderedClusterIds : List Nat) :
    Option String → Except String (LayerFilter × LayerFilter)
  | some treeName =>
    if treeName = "" then Except.ok emptyFilters
    else
      match collectHighlightIds idx treeName renderedClusterIds with
      | Except.error e => Except.error e
      | Except.ok ids =>
        Except.ok (LayerFilter.mk "common_name" [FilterVal.str treeName],
                   LayerFilter.mk "cluster_id" (ids.map FilterVal.num))
  | none => Except.ok emptyFilters

/-- App.jsx handleTreeListClick lines 169-175, restricted to the highlight
state: clicking the already highlighted name clears it, otherwise selects. -/
def handleTreeListClick (highlighted : Option String) (treeName : String) : Option String :=
  if some treeName = highlighted then none else some treeName

/-- The app-level events that drive aggregation and highlighting: the single
once-idle callback after layers load, a debounced moveend/zoomend settle, and
a sidebar click. -/
inductive AppEvent where
  | initialIdle
  | settle
  | treeListClick (name : String)
deriving DecidableEq

/-- The part of the App component state the trigger claims reason about,
instrumented with invocation counters for updateVisibleTrees and
highlightTree. -/
structure AppState where
  highlightedTree : Option String
  aggregations : Nat
  filterSyncs : Nat
deriving DecidableEq

/-- One App event step: the once-idle callback awaits updateVisibleTrees; the
debounced updateMap awaits highlightTree then updateVisibleTrees; a sidebar
click updates the highlight state and calls highlightTree only. -/
def stepApp (st : AppState) (e : AppEvent) : AppState :=
  match e with
  | AppEvent.initialIdle => { st with aggregations := st.aggregations + 1 }
  | AppEvent.settle =>
    { st with filterSyncs := st.filterSyncs + 1, aggregations := st.aggregations + 1 }
  | AppEvent.treeListClick name =>
    { st with highlightedTree := handleTreeListClick st.highlightedTree name,
              filterSyncs := st.filterSyncs + 1 }

/-- Initial app state: nothing highlighted, nothing invoked yet. -/
def appInit : AppState := AppState.mk none 0 0

/-- Run a sequence of app events. -/
def runApp (st : AppState) (es : List AppEvent) : AppState := es.foldl stepApp st

/-- The events whose handlers invoke updateVisibleTrees in the source. -/
def isAggTrigger : AppEvent → Bool
  | AppEvent.initialIdle => true
  | AppEvent.settle => true
  | AppEvent.treeListClick _ => false

/-- A geographic coordinate (event.lngLat), abstracted to an integer pair. -/
abbrev Coord := Int × Int

/-- The gesture-layer state: the pending long-press timer with its deadline
and the captured press event coordinate, the popup, the creation form, and
the list of emitted create-intents (each form open with its coordinate). -/
structure GestureState where
  longPressTimeout : Option (Nat × Coord)
  popupOpen : Bool
  newTreeCoordinates : Option Coord
  isFormVisible : Bool
  intents : List Coord
deriving DecidableEq

/-- App.jsx handleLongPress: store the press-start coordinate and open the
creation form; this is the create-intent emission. -/
def handleLongPress (coord : Coord) (st : GestureState) : GestureState :=
  { st with newTreeCoordinates := some coord, isFormVisible := true,
            intents := st.intents ++ [coord] }

/-- App.jsx startPress: hit-test the press point against the unclustered-point
and clusters layers; only when no feature is hit, dismiss the popup and
schedule handleLongPress over the press event after 1000ms. -/
def startPress (now : Nat) (hitFeatures : List Feature) (coord : Coord) (st : GestureState) :
    GestureState :=
  if hitFeatures.length = 0 then
    { st with popupOpen := false, longPressTimeout := some (now + 1000, coord) }
  else st

/-- App.jsx endPress: clear any pending long-press timer (synchronous
cancellation on mouseup, touchend, touchcancel). -/
def endPress (st : GestureState) : GestureState :=
  { st with longPressTimeout := none }

/-- Event-loop timer semantics: a scheduled timeout whose deadline has been
reached fires handleLongPress on its captured coordinate and clears itself. -/
def fireTimeoutIfDue (now : Nat) (st : GestureState) : GestureState :=
  match st.longPressTimeout with
  | some (deadline, coord) =>
    if deadline ≤ now then handleLongPress coord { st with longPressTimeout := none } else st
  | none => st

/-- Whether the pointer was held for at least the 1000ms dwell time. -/
def heldFull : Option Nat → Bool
  | none => true
  | some t => decide (1000 ≤ t)

/-- One pointer session on the single-threaded event loop: pointer-down at
time 0 runs startPress; if the pointer is released before the 1000ms deadline
the release (endPress) runs first and cancels the timer, otherwise the due
timer fires first; releaseAt = none means the press is never released. -/
def runSession (hitFeatures : List Feature) (coord : Coord) (releaseAt : Option Nat)
    (st : GestureState) : GestureState :=
  let st1 := startPress 0 hitFeatures coord st
  match releaseAt with
  | none => fireTimeoutIfDue 1000 st1
  | some t => if t < 1000 then endPress st1 else endPress (fireTimeoutIfDue 1000 st1)

/-- A fresh gesture layer: no pending timer, no form, no intents. -/
def gestureInit : GestureState := GestureState.mk none true none false []

/-- The entity collection: a GeoJSON feature collection object, with its
feature list and its other fields (represented by the type tag). -/
structure TreeCollection where
  type_ : String
  features : List TreePoint
deriving DecidableEq

/-- Outcome of a removal attempt: whether sendRemoveLocation was invoked, and
the resulting collection. -/
structure RemoveOutcome where
  networkCalled : Bool
  collection : TreeCollection
deriving DecidableEq

/-- App.jsx removeTree lines 287-301: prompt for a name; a falsy result (the
prompt cancelled, or the empty string) aborts before the network call; any
other string reaches sendRemoveLocation, and on its success the collection
keeps exactly the features with a different location_id. -/
def removeTree (removedBy : Option String) (remoteOk : Bool) (col : TreeCollection)
    (locationId : Nat) : RemoveOutcome :=
  match removedBy with
  | none => RemoveOutcome.mk false col
  | some s =>
    if s = "" then RemoveOutcome.mk false col
    else if remoteOk then
      RemoveOutcome.mk true
        { col with features := col.features.filter (fun f => f.location_id != locationId) }
    else RemoveOutcome.mk true col

/-- App.jsx handleAddTreeSubmit lines 128-147: await sendAddLocation; on
success append treeToFeature(addedTree) to the feature list, on failure leave
the collection untouched (the catch only logs). -/
def handleAddTreeSubmit {α : Type} (response : Except String α) (treeToFeature : α → TreePoint)
    (col : TreeCollection) : TreeCollection :=
  match response with
  | Except.ok addedTree => { col with features := col.features ++ [treeToFeature addedTree] }
  | Except.error _ => col

/-- App.jsx line 94: setVisibleTrees publishes a pass result unconditionally,
with no generation check against the previously published value. -/
def setVisibleTrees (_published : Option Groups) (result : Groups) : Option Groups := some result

/-- The published sidebar state after a sequence of pass completions, applied
in the order the passes resolve. -/
def runCompletions (completions : List Groups) : Option Groups :=
  completions.foldl setVisibleTrees none

/-- Test index: cluster 0 holds one Oak, cluster 1 holds one Maple. -/
def idxW : ClusterIndex := fun cid =>
  if cid = 0 then Except.ok (some [TreePoint.mk 1 "Oak"])
  else if cid = 1 then Except.ok (some [TreePoint.mk 2 "Maple"])
  else Except.error "no cluster"

/-- Test index: cluster 0 holds two Oaks. -/
def idxDup : ClusterIndex := fun cid =>
  if cid = 0 then Except.ok (some [TreePoint.mk 1 "Oak", TreePoint.mk 2 "Oak"])
  else Except.error "no cluster"

/-- Test index: every expansion fails with a stale-identifier error. -/
def idxBad : ClusterIndex := fun _ => Except.error "stale"

/-- Test collection with two trees. -/
def colW : TreeCollection :=
  TreeCollection.mk "FeatureCollection" [TreePoint.mk 1 "Oak", TreePoint.mk 2 "Maple"]

/-- Test collection with one tree. -/
def colC4 : TreeCollection := TreeCollection.mk "FeatureCollection" [TreePoint.mk 7 "Oak"]

/-- A pass result listing one Oak point. -/
def resultOak : Groups := [("Oak", [Feature.point (TreePoint.mk 1 "Oak")])]

/-- A pass result listing one Maple point. -/
def resultMaple : Groups := [("Maple", [Feature.point (TreePoint.mk 2 "Maple")])]

/-- C4 counterexample: a whitespace-only confirmation token (a single space)
is truthy in JS, so the remote delete IS invoked, contrary to the claim that
it is never invoked for whitespace-only tokens. -/
theorem C4_counterexample : (removeTree (some " ") true colC4 7).networkCalled = true := by
  decide

/-- C4 (amended): the remote delete is never invoked when the prompt is
cancelled or the token is the empty string; in both cases the collection is
unchanged.  (Whitespace-only tokens are accepted by the code.) -/
theorem C4_remove_gating (remoteOk : Bool) (col : TreeCollection) (locationId : Nat) :
    removeTree none remoteOk col locationId = RemoveOutcome.mk false col
    ∧ removeTree (some "") remoteOk col locationId = RemoveOutcome.mk false col := by
  constructor <;> simp [removeTree]

/-- C6 counterexample: starting from a state in which Oak is already
highlighted, selecting Oak twice leaves Oak highlighted, not none. -/
theorem C6_counterexample :
    handleTreeListClick (handleTreeListClick (some "Oak") "Oak") "Oak" = some "Oak"
    ∧ handleTreeListClick (handleTreeListClick (some "Oak") "Oak") "Oak" ≠ none := by
  decide

/-- C6 (amended): from a state where a is not already highlighted, selecting
a twice returns the highlight to none; selecting a then a different b leaves
exactly b highlighted, from any starting state. -/
theorem C6_toggle (cur : Option String) (a b : String) :
    (cur ≠ some a → handleTreeListClick (handleTreeListClick cur a) a = none)
    ∧ (a ≠ b → handleTreeListClick (handleTreeListClick cur a) b = some b) := by
  constructor
  · intro h
    have h2 : ¬ (some a = cur) := fun he => h he.symm
    simp [handleTreeListClick, h2]
  · intro hab
    have h2 : ¬ (some b = some a) := by simp; exact fun he => hab he.symm
    by_cases h1 : some a = cur <;> simp [handleTreeListClick, h1, h2]

/-- C6 witness: from the fresh state, Oak twice clears; Oak then Maple leaves
Maple highlighted. -/
theorem C6_witness :
    handleTreeListClick (handleTreeListClick none "Oak") "Oak" = none
    ∧ handleTreeListClick (handleTreeListClick none "Oak") "Maple" = some "Maple" := by
  exact ⟨(C6_toggle none "Oak" "Oak").1 (by simp),
         (C6_toggle none "Oak" "Maple").2 (by decide)⟩

/-- C7: on remote success the collection is exactly the prior collection with
the one server-confirmed record appended (other fields unchanged), and on
remote failure the collection is exactly unchanged. -/
theorem C7_add_round_trip {α : Type} (conv : α → TreePoint) (col : TreeCollection) :
    (∀ t : α, (handleAddTreeSubmit (Except.ok t) conv col).features
        = col.features ++ [conv t]
      ∧ (handleAddTreeSubmit (Except.ok t) conv col).features.length
        = col.features.length + 1
      ∧ (handleAddTreeSubmit (Except.ok t) conv col).type_ = col.type_)
    ∧ (∀ e : String, handleAddTreeSubmit (Except.error e) conv col = col) := by
  constructor
  · intro t
    refine ⟨rfl, ?_, rfl⟩
    simp [handleAddTreeSubmit]
  · intro e
    rfl

/-- C8 counterexample: a sidebar click changes the highlight (select of Oak)
and runs the filter resync, but invokes zero aggregation passes, contrary to
the claim that aggregation runs after every highlight change. -/
theorem C8_counterexample :
    (runApp appInit [AppEvent.treeListClick "Oak"]).aggregations = 0
    ∧ (runApp appInit [AppEvent.treeListClick "Oak"]).highlightedTree = some "Oak"
    ∧ (runApp appInit [AppEvent.treeListClick "Oak"]).filterSyncs = 1 := by
  decide

/-- C8 (amended): over any event sequence, aggregation is invoked exactly once
per initial-idle event and once per debounced settle event; highlight changes
(sidebar clicks) run only the filter resync, never aggregation. -/
theorem C8_agg_triggers (es : List AppEvent) (st : AppState) :
    (runApp st es).aggregations = st.aggregations + es.countP isAggTrigger := by
  induction es generalizing st with
  | nil => simp [runApp]
  | cons e rest ih =>
    have h1 : runApp st (e :: rest) = runApp (stepApp st e) rest := rfl
    rw [h1, ih]
    cases e <;> simp [stepApp, isAggTrigger, List.countP_cons] <;> omega

/-- C9 counterexample: pass P1 (result resultOak) is triggered first but its
expansions resolve last; pass P2 (result resultMaple) resolves first.  The
completion order is [resultMaple, resultOak] and the published value is
resultOak, i.e. the stale P1 overwrote P2. -/
theorem C9_counterexample :
    runCompletions [resultMaple, resultOak] = some resultOak
    ∧ resultOak ≠ resultMaple := by
  decide

/-- C9 (amended): setVisibleTrees publishes unconditionally, so the published
sidebar result is always that of the pass whose expansions resolve last,
regardless of trigger order; there is no generation tracking. -/
theorem C9_last_completion_wins (l : List Groups) (r : Groups) :
    runCompletions (l ++ [r]) = some r := by
  simp [runCompletions, List.foldl_append, setVisibleTrees]

/-- C10: after a confirmed successful removal of location L, the features are
exactly those of the prior collection with a different location_id, in their
original relative order (a sublist), and the other collection fields are
unchanged. -/
theorem C10_remove_frame (s : String) (col : TreeCollection) (locationId : Nat)
    (hs : s ≠ "") :
    (∀ f, f ∈ (removeTree (some s) true col locationId).collection.features
        ↔ (f ∈ col.features ∧ f.location_id ≠ locationId))
    ∧ (removeTree (some s) true col locationId).collection.features.Sublist col.features
    ∧ (removeTree (some s) true col locationId).collection.type_ = col.type_
    ∧ (removeTree (some s) true col locationId).networkCalled = true := by
  have hred : removeTree (some s) true col locationId
      = RemoveOutcome.mk true
          { col with features := col.features.filter (fun f => f.location_id != locationId) } := by
    simp [removeTree, hs]
  rw [hred]
  refine ⟨?_, ?_, rfl, rfl⟩
  · intro f
    simp [List.mem_filter]
  · exact List.filter_sublist _

/-- C10 witness: removing location 1 from the two-tree collection keeps the
Maple, drops the Oak, and marks the network call made. -/
theorem C10_witness :
    TreePoint.mk 2 "Maple" ∈ (removeTree (some "alice") true colW 1).collection.features
    ∧ TreePoint.mk 1 "Oak" ∉ (removeTree (some "alice") true colW 1).collection.features
    ∧ (removeTree (some "alice") true colW 1).networkCalled = true := by
  have h := C10_remove_frame "alice" colW 1 (by decide)
  refine ⟨(h.1 _).mpr (by decide), ?_, h.2.2.2⟩
  intro hm
  exact absurd ((h.1 _).mp hm).2 (by decide)

/-- C5: within one pointer session starting from a clean gesture layer,
exactly one create-intent carrying the press-start coordinate is emitted iff
the hit-test found no feature and the press lasted at least the 1000ms dwell
time; otherwise no intent is emitted. -/
theorem C5_gesture (hitFeatures : List Feature) (coord : Coord) (releaseAt : Option Nat)
    (st : GestureState) (hst : st.longPressTimeout = none) :
    (runSession hitFeatures coord releaseAt st).intents
      = st.intents ++ (if hitFeatures.isEmpty && heldFull releaseAt then [coord] else []) := by
  cases hitFeatures with
  | nil =>
    cases releaseAt with
    | none =>
      simp [runSession, startPress, fireTimeoutIfDue, handleLongPress, heldFull]
    | some t =>
      by_cases ht : t < 1000
      · have hf : heldFull (some t) = false := by
          simp [heldFull]
          omega
        simp [runSession, startPress, endPress, ht, hf]
      · have hf : heldFull (some t) = true := by
          simp [heldFull]
          omega
        simp [runSession, startPress, endPress, fireTimeoutIfDue, handleLongPress, ht, hf]
  | cons f rest =>
    cases releaseAt with
    | none =>
      simp [runSession, startPress, fireTimeoutIfDue, hst]
    | some t =>
      by_cases ht : t < 1000
      · simp [runSession, startPress, endPress, ht]
      · simp [runSession, startPress, endPress, fireTimeoutIfDue, ht, hst]

/-- C5 witness: over empty map area, a press held 1500ms emits exactly the
press-start coordinate; a press released at 999ms emits nothing; a press over
a feature emits nothing regardless of duration. -/
theorem C5_witness :
    (runSession [] (1, 2) (some 1500) gestureInit).intents = [(1, 2)]
    ∧ (runSession [] (3, 4) (some 999) gestureInit).intents = []
    ∧ (runSession [Feature.point (TreePoint.mk 1 "Oak")] (5, 6) none gestureInit).intents
        = [] := by
  refine ⟨?_, ?_, ?_⟩
  · have h := C5_gesture [] (1, 2) (some 1500) gestureInit rfl
    simpa using h
  · have h := C5_gesture [] (3, 4) (some 999) gestureInit rfl
    simpa using h
  · have h := C5_gesture [Feature.point (TreePoint.mk 1 "Oak")] (5, 6) none gestureInit rfl
    simpa using h

/-- If some feature in the list has a failing expansion, the sequential
reduce of updateVisibleTrees rejects as a whole. -/
theorem aggregateGroups_err (idx : ClusterIndex) :
    ∀ (combined : List Feature) (g : Groups),
      (∃ f, f ∈ combined ∧ isOkE (featureLeaves idx f) = false) →
      isOkE (aggregateGroups idx combined g) = false := by
  intro combined
  induction combined with
  | nil =>
    intro g h
    obtain ⟨f, hf, _⟩ := h
    cases hf
  | cons f0 rest ih =>
    intro g h
    obtain ⟨f, hf, hbad⟩ := h
    cases hl : featureLeaves idx f0 with
    | error e => simp [aggregateGroups, hl, isOkE]
    | ok leaves =>
      rcases List.mem_cons.mp hf with rfl | htl
      · rw [hl] at hbad
        simp [isOkE] at hbad
      · simp only [aggregateGroups, hl]
        exact ih _ ⟨f, htl, hbad⟩

/-- C2 counterexample: with one rendered point and one rendered cluster whose
expansion fails, the whole aggregation pass rejects with the expansion error;
no result at all is published, not even for the remaining point. -/
theorem C2_counterexample :
    updateVisibleTrees idxBad [TreePoint.mk 1 "Oak"] [0] = Except.error "stale" := by
  rfl

/-- C2 (amended): whenever any rendered cluster of the pass has a failing
expansion, the aggregation pass fails as a whole (the rejection propagates
through the unguarded await), so nothing is published for that pass. -/
theorem C2_expansion_error_aborts (idx : ClusterIndex) (pts : List TreePoint) (cls : List Nat)
    (h : ∃ cid, cid ∈ cls ∧ isOkE (getClusterFeatures idx cid) = false) :
    isOkE (updateVisibleTrees idx pts cls) = false := by
  obtain ⟨cid, hmem, hbad⟩ := h
  have hfam : ∃ f, f ∈ combinedFeatures pts cls ∧ isOkE (featureLeaves idx f) = false := by
    refine ⟨Feature.cluster cid, ?_, ?_⟩
    · exact List.mem_append_right _ (List.mem_map_of_mem _ hmem)
    · simpa [featureLeaves] using hbad
  have hagg := aggregateGroups_err idx (combinedFeatures pts cls) [] hfam
  unfold updateVisibleTrees
  cases hA : aggregateGroups idx (combinedFeatures pts cls) [] with
  | error e => simp [isOkE]
  | ok g =>
    rw [hA] at hagg
    simp [isOkE] at hagg

/-- C2 witness: a pass over one stale cluster fails as a whole. -/
theorem C2_witness : isOkE (updateVisibleTrees idxBad [] [5]) = false := by
  exact C2_expansion_error_aborts idxBad [] [5] ⟨5, by decide, by decide⟩

/-- Characterization of the ids collected by the highlightTree loop: an id is
collected iff it is a rendered cluster id whose (successful) expansion holds a
leaf of the selected category. -/
theorem collectHighlightIds_ok (idx : ClusterIndex) (treeName : String) :
    ∀ (cls ids : List Nat), collectHighlightIds idx treeName cls = Except.ok ids →
      ∀ n, n ∈ ids ↔
        (n ∈ cls ∧ (clusterLeavesD idx n).any (fun l => l.common_name == treeName) = true) := by
  intro cls
  induction cls with
  | nil =>
    intro ids h n
    simp only [collectHighlightIds, Except.ok.injEq] at h
    subst h
    simp
  | cons cid rest ih =>
    intro ids h n
    cases hg : getClusterFeatures idx cid with
    | error e => simp [collectHighlightIds, hg] at h
    | ok leaves =>
      cases ht : collectHighlightIds idx treeName rest with
      | error e => simp [collectHighlightIds, hg, ht] at h
      | ok tail =>
        simp only [collectHighlightIds, hg, ht, Except.ok.injEq] at h
        have hcl : clusterLeavesD idx cid = leaves := by
          simp [clusterLeavesD, hg]
        have ihn := ih tail ht n
        by_cases hAny : leaves.any (fun l => l.common_name == treeName) = true
        · rw [if_pos hAny] at h
          subst h
          by_cases hn : n = cid
          · subst hn
            simp [hcl, hAny]
          · simp [hn, ihn]
        · rw [if_neg hAny] at h
          subst h
          have hA2 : leaves.any (fun l => l.common_name == treeName) = false :=
            Bool.not_eq_true _ ▸ eq_false_of_ne_true hAny
          by_cases hn : n = cid
          · subst hn
            simp [ihn, hcl, hA2]
          · simp [hn, ihn]

/-- C1: for a selected (non-sentinel) category, the point overlay filter is
the direct equality predicate on the category, and the cluster overlay filter
matches exactly the rendered cluster ids whose expansion contains a leaf of
the category; with no selection, both overlays get the sentinel filters,
which match no cluster id and no non-empty category name. -/
theorem C1_highlight_filters (idx : ClusterIndex) (cls : List Nat) (c : String)
    (pf cf : LayerFilter) (hc : c ≠ "")
    (h : highlightTree idx cls (some c) = Except.ok (pf, cf)) :
    (∀ s, pf.matchesStr s ↔ s = c)
    ∧ (∀ n, cf.matchesNum n ↔
        (n ∈ cls ∧ (clusterLeavesD idx n).any (fun l => l.common_name == c) = true))
    ∧ highlightTree idx cls none = Except.ok emptyFilters
    ∧ (∀ s, s ≠ "" → ¬ (emptyFilters.1).matchesStr s)
    ∧ (∀ n, ¬ (emptyFilters.2).matchesNum n) := by
  simp only [highlightTree, if_neg hc] at h
  cases hcol : collectHighlightIds idx c cls with
  | error e => rw [hcol] at h; cases h
  | ok ids =>
    rw [hcol] at h
    have hpair := Except.ok.inj h
    have hpf : LayerFilter.mk "common_name" [FilterVal.str c] = pf :=
      congrArg Prod.fst hpair
    have hcf : LayerFilter.mk "cluster_id" (ids.map FilterVal.num) = cf :=
      congrArg Prod.snd hpair
    refine ⟨?_, ?_, rfl, ?_, ?_⟩
    · intro s
      rw [← hpf]
      simp [LayerFilter.matchesStr]
    · intro n
      rw [← hcf]
      have hmem : LayerFilter.matchesNum (LayerFilter.mk "cluster_id" (ids.map FilterVal.num)) n
          ↔ n ∈ ids := by
        simp [LayerFilter.matchesNum]
      rw [hmem]
      exact collectHighlightIds_ok idx c cls ids hcol n
    · intro s hs
      simp [emptyFilters, LayerFilter.matchesStr, hs]
    · intro n
      simp [emptyFilters, LayerFilter.matchesNum]

/-- C1 witness: with cluster 0 holding an Oak and cluster 1 holding a Maple,
selecting Oak highlights exactly cluster 0, the point filter is equality with
Oak, and the sentinel filters match nothing relevant. -/
theorem C1_witness :
    (LayerFilter.mk "common_name" [FilterVal.str "Oak"]).matchesStr "Oak"
    ∧ ¬ (LayerFilter.mk "common_name" [FilterVal.str "Oak"]).matchesStr "Maple"
    ∧ (LayerFilter.mk "cluster_id" [FilterVal.num 0]).matchesNum 0
    ∧ ¬ (LayerFilter.mk "cluster_id" [FilterVal.num 0]).matchesNum 1
    ∧ ¬ (emptyFilters.2).matchesNum 0 := by
  have h := C1_highlight_filters idxW [0, 1] "Oak"
    (LayerFilter.mk "common_name" [FilterVal.str "Oak"])
    (LayerFilter.mk "cluster_id" [FilterVal.num 0]) (by decide) (by rfl)
  refine ⟨(h.1 "Oak").mpr rfl, ?_, (h.2.1 0).mpr (by decide), ?_, h.2.2.2.2 0⟩
  · intro hm
    exact absurd ((h.1 "Maple").mp hm) (by decide)
  · intro hm
    exact absurd ((h.2.1 1).mp hm).2 (by decide)

/-- Effect of one JS-object push on a bucket lookup. -/
theorem getG_pushGroup (g : Groups) (cname c : String) (f : Feature) :
    getG c (pushGroup g cname f) = if cname = c then getG c g ++ [f] else getG c g := by
  induction g with
  | nil =>
    by_cases h : cname = c <;> simp [pushGroup, getG, h]
  | cons hd tl ih =>
    obtain ⟨c0, fs0⟩ := hd
    by_cases h1 : c0 = cname
    · subst h1
      by_cases h2 : c0 = c <;> simp [pushGroup, getG, h2]
    · by_cases h2 : c0 = c
      · subst h2
        have h3 : ¬ cname = c0 := fun he => h1 he.symm
        simp [pushGroup, getG, h1, h3]
      · simp [pushGroup, getG, h1, h2, ih]

/-- Recording one feature under each of its leaves appends one copy of the
feature per matching leaf to the bucket of each category. -/
theorem getG_addFeature (g : Groups) (f : Feature) (leaves : List TreePoint) (c : String) :
    getG c (addFeature g f leaves)
      = getG c g ++ List.replicate (leaves.countP (fun p => p.common_name == c)) f := by
  induction leaves generalizing g with
  | nil => simp [addFeature]
  | cons p rest ih =>
    have h1 : addFeature g f (p :: rest) = addFeature (pushGroup g p.common_name f) f rest := rfl
    rw [h1, ih, getG_pushGroup]
    by_cases h : p.common_name = c
    · simp [h, List.countP_cons, List.replicate_succ, List.append_assoc]
    · simp [h, List.countP_cons]

/-- A successful aggregation fold extends every bucket by the per-feature
contributions, in traversal order. -/
theorem aggregateGroups_ok_getG (idx : ClusterIndex) :
    ∀ (combined : List Feature) (g out : Groups),
      aggregateGroups idx combined g = Except.ok out →
      ∀ c, getG c out = getG c g ++ contribs idx c combined := by
  intro combined
  induction combined with
  | nil =>
    intro g out h c
    simp only [aggregateGroups, Except.ok.injEq] at h
    subst h
    simp [contribs]
  | cons f rest ih =>
    intro g out h c
    cases hl : featureLeaves idx f with
    | error e => simp [aggregateGroups, hl] at h
    | ok leaves =>
      simp only [aggregateGroups, hl] at h
      have hstep := ih (addFeature g f leaves) out h c
      have hld : leavesD idx f = leaves := by simp [leavesD, hl]
      rw [hstep, getG_addFeature]
      simp [contribs, mcount, hld, List.append_assoc]

/-- Occurrences of an element in a replicated list. -/
theorem countReplicate (n : Nat) (f f0 : Feature) :
    (List.replicate n f).count f0 = if f = f0 then n else 0 := by
  induction n with
  | zero => simp
  | succ k ih =>
    rw [List.replicate_succ, List.count_cons, ih]
    by_cases h : f = f0 <;> simp [h]

/-- The multiplicity of a feature in a bucket contribution equals its
multiplicity in the combined feature list times its matching-leaf count. -/
theorem count_contribs (idx : ClusterIndex) (c : String) (f0 : Feature) :
    ∀ combined : List Feature,
      (contribs idx c combined).count f0 = combined.count f0 * mcount idx f0 c := by
  intro combined
  induction combined with
  | nil => simp [contribs]
  | cons f rest ih =>
    have h1 : contribs idx c (f :: rest)
        = List.replicate (mcount idx f c) f ++ contribs idx c rest := rfl
    rw [h1, List.count_append, ih, countReplicate, List.count_cons]
    by_cases h : f = f0
    · subst h
      simp
      ring
    · simp [h]

/-- Keys of the accumulator after one push. -/
theorem keysG_pushGroup (g : Groups) (c : String) (f : Feature) :
    keysG (pushGroup g c f) = if c ∈ keysG g then keysG g else keysG g ++ [c] := by
  induction g with
  | nil => simp [pushGroup, keysG]
  | cons hd tl ih =>
    obtain ⟨c0, fs0⟩ := hd
    by_cases h : c0 = c
    · subst h
      simp [pushGroup, keysG]
    · have hcc0 : ¬ c = c0 := fun he => h he.symm
      have hkeys : keysG ((c0, fs0) :: tl) = c0 :: keysG tl := rfl
      have hpush : pushGroup ((c0, fs0) :: tl) c f = (c0, fs0) :: pushGroup tl c f := by
        simp [pushGroup, h]
      have hkeys2 : keysG (pushGroup ((c0, fs0) :: tl) c f)
          = c0 :: keysG (pushGroup tl c f) := by
        rw [hpush]
        rfl
      rw [hkeys2, ih, hkeys]
      by_cases h2 : c ∈ keysG tl
      · have hmem : c ∈ c0 :: keysG tl := List.mem_cons_of_mem _ h2
        rw [if_pos h2, if_pos hmem]
      · have hmem : c ∉ c0 :: keysG tl := by
          intro hmc
          rcases List.mem_cons.mp hmc with he | hm2
          · exact hcc0 he
          · exact h2 hm2
        rw [if_neg h2, if_neg hmem]
        rfl

/-- A push preserves distinctness of the accumulator keys. -/
theorem nodup_keysG_pushGroup (g : Groups) (c : String) (f : Feature)
    (h : (keysG g).Nodup) : (keysG (pushGroup g c f)).Nodup := by
  rw [keysG_pushGroup]
  by_cases hc : c ∈ keysG g
  · simp only [if_pos hc]
    exact h
  · simp only [if_neg hc]
    rw [List.nodup_append]
    refine ⟨h, List.nodup_singleton c, ?_⟩
    intro a ha hb
    rw [List.mem_singleton] at hb
    subst hb
    exact hc ha

/-- Recording a feature preserves distinctness of the accumulator keys. -/
theorem nodup_keysG_addFeature (g : Groups) (f : Feature) (leaves : List TreePoint)
    (h : (keysG g).Nodup) : (keysG (addFeature g f leaves)).Nodup := by
  induction leaves generalizing g with
  | nil => exact h
  | cons p rest ih => exact ih _ (nodup_keysG_pushGroup g p.common_name f h)

/-- A successful aggregation fold preserves distinctness of the keys. -/
theorem nodup_keysG_agg (idx : ClusterIndex) :
    ∀ (combined : List Feature) (g out : Groups),
      aggregateGroups idx combined g = Except.ok out → (keysG g).Nodup →
      (keysG out).Nodup := by
  intro combined
  induction combined with
  | nil =>
    intro g out h hn
    simp only [aggregateGroups, Except.ok.injEq] at h
    subst h
    exact hn
  | cons f rest ih =>
    intro g out h hn
    cases hl : featureLeaves idx f with
    | error e => simp [aggregateGroups, hl] at h
    | ok leaves =>
      simp only [aggregateGroups, hl] at h
      exact ih _ out h (nodup_keysG_addFeature g f leaves hn)

/-- With distinct keys, an accumulator entry is its own bucket lookup. -/
theorem getG_of_mem (c : String) (fs : List Feature) :
    ∀ g : Groups, (keysG g).Nodup → (c, fs) ∈ g → getG c g = fs := by
  intro g
  induction g with
  | nil =>
    intro _ hm
    cases hm
  | cons hd tl ih =>
    intro hnd hm
    obtain ⟨c0, fs0⟩ := hd
    have hkeys : keysG ((c0, fs0) :: tl) = c0 :: keysG tl := rfl
    rw [hkeys, List.nodup_cons] at hnd
    rcases List.mem_cons.mp hm with heq | htl
    · injection heq with hc hfs
      subst hc
      subst hfs
      simp [getG]
    · have hc0 : ¬ c0 = c := by
        intro he
        subst he
        have hck : c0 ∈ keysG tl := by
          have := List.mem_map_of_mem (fun e : String × List Feature => e.1) htl
          simpa [keysG] using this
        exact hnd.1 hck
      simp only [getG, if_neg hc0]
      exact ih hnd.2 htl

/-- Stable insertion produces a permutation of consing. -/
theorem insertGroup_perm (x : String × List Feature) (l : Groups) :
    (insertGroup x l).Perm (x :: l) := by
  induction l with
  | nil => exact List.Perm.refl _
  | cons y ys ih =>
    by_cases h : y.2.length ≤ x.2.length
    · simp only [insertGroup, if_pos h]
      exact List.Perm.refl _
    · simp only [insertGroup, if_neg h]
      exact List.Perm.trans (List.Perm.cons y ih) (List.Perm.swap x y ys)

/-- The sidebar sort permutes the accumulator entries. -/
theorem sortGroups_perm (g : Groups) : (sortGroups g).Perm g := by
  induction g with
  | nil => exact List.Perm.refl _
  | cons a l ih =>
    have h1 : sortGroups (a :: l) = insertGroup a (sortGroups l) := rfl
    rw [h1]
    exact List.Perm.trans (insertGroup_perm a (sortGroups l)) (List.Perm.cons a ih)

/-- Stable insertion preserves the descending-by-length order. -/
theorem insertGroup_sorted (x : String × List Feature) (l : Groups)
    (h : List.Sorted byCountDesc l) : List.Sorted byCountDesc (insertGroup x l) := by
  induction l with
  | nil => simp [insertGroup]
  | cons y ys ih =>
    rw [List.sorted_cons] at h
    by_cases hxy : y.2.length ≤ x.2.length
    · simp only [insertGroup, if_pos hxy]
      rw [List.sorted_cons]
      constructor
      · intro b hb
        rcases List.mem_cons.mp hb with rfl | hbys
        · exact hxy
        · exact le_trans (h.1 b hbys) hxy
      · rw [List.sorted_cons]
        exact h
    · simp only [insertGroup, if_neg hxy]
      rw [List.sorted_cons]
      constructor
      · intro b hb
        rcases List.mem_cons.mp ((insertGroup_perm x ys).mem_iff.mp hb) with rfl | hbys
        · exact le_of_lt (Nat.lt_of_not_le hxy)
        · exact h.1 b hbys
      · exact ih h.2

/-- The sidebar sort output is descending by bucket length. -/
theorem sortGroups_sorted (g : Groups) : List.Sorted byCountDesc (sortGroups g) := by
  induction g with
  | nil => simp [sortGroups]
  | cons a l ih => exact insertGroup_sorted a (sortGroups l) ih

/-- The deduplicated point list has pairwise distinct location_ids, none of
them in the already-seen set. -/
theorem dedupeByLocAux_nodup :
    ∀ (pts : List TreePoint) (seen : List Nat),
      ((dedupeByLocAux seen pts).map (fun p => p.location_id)).Nodup
      ∧ ∀ i, i ∈ (dedupeByLocAux seen pts).map (fun p => p.location_id) → i ∉ seen := by
  intro pts
  induction pts with
  | nil =>
    intro seen
    simp [dedupeByLocAux]
  | cons p rest ih =>
    intro seen
    by_cases hp : p.location_id ∈ seen
    · rw [show dedupeByLocAux seen (p :: rest) = dedupeByLocAux seen rest from by
        simp [dedupeByLocAux, hp]]
      exact ih seen
    · rw [show dedupeByLocAux seen (p :: rest)
          = p :: dedupeByLocAux (p.location_id :: seen) rest from by
        simp [dedupeByLocAux, hp]]
      obtain ⟨ihn, ihm⟩ := ih (p.location_id :: seen)
      rw [List.map_cons]
      constructor
      · rw [List.nodup_cons]
        refine ⟨?_, ihn⟩
        intro hmem
        exact (ihm _ hmem) (List.mem_cons_self _ _)
      · intro i hi
        rcases List.mem_cons.mp hi with rfl | hi2
        · exact hp
        · intro hs
          exact (ihm i hi2) (List.mem_cons_of_mem _ hs)

/-- Deduplication leaves no two rendered points with the same location_id. -/
theorem dedupeByLoc_nodup (pts : List TreePoint) :
    ((dedupeByLoc pts).map (fun p => p.location_id)).Nodup :=
  (dedupeByLocAux_nodup pts []).1

/-- C3 counterexample: a single rendered cluster holding two Oak leaves ends
up twice in the Oak bucket, so buckets are not sets of distinct features and
the sort key is occurrence count, not distinct-feature count. -/
theorem C3_counterexample :
    updateVisibleTrees idxDup [] [0]
      = Except.ok [("Oak", [Feature.cluster 0, Feature.cluster 0])]
    ∧ ([Feature.cluster 0, Feature.cluster 0].count (Feature.cluster 0)) = 2 := by
  exact ⟨rfl, rfl⟩

/-- C3 (amended): a successful aggregation pass gives each category a bucket
in which every feature occurs once per matching leaf of its expansion (times
its multiplicity among deduplicated points and rendered clusters); the
published list is ordered descending by bucket length, and the points were
deduplicated by location identity first. -/
theorem C3_aggregation (idx : ClusterIndex) (pts : List TreePoint) (cls : List Nat)
    (out : Groups) (h : updateVisibleTrees idx pts cls = Except.ok out) :
    (∀ c fs, (c, fs) ∈ out →
      ∀ f0, fs.count f0 = (combinedFeatures pts cls).count f0 * mcount idx f0 c)
    ∧ List.Sorted byCountDesc out
    ∧ ((dedupeByLoc pts).map (fun p => p.location_id)).Nodup := by
  unfold updateVisibleTrees at h
  cases hA : aggregateGroups idx (combinedFeatures pts cls) [] with
  | error e =>
    rw [hA] at h
    cases h
  | ok g0 =>
    rw [hA] at h
    have hout : sortGroups g0 = out := Except.ok.inj h
    refine ⟨?_, ?_, dedupeByLoc_nodup pts⟩
    · intro c fs hm f0
      have hmg : (c, fs) ∈ g0 := by
        rw [← hout] at hm
        exact (sortGroups_perm g0).mem_iff.mp hm
      have hnd : (keysG g0).Nodup := nodup_keysG_agg idx _ [] g0 hA (by simp [keysG])
      have hfs : getG c g0 = fs := getG_of_mem c fs g0 hnd hmg
      have hgg := aggregateGroups_ok_getG idx (combinedFeatures pts cls) [] g0 hA c
      rw [hfs] at hgg
      rw [hgg]
      simp only [getG, List.nil_append]
      exact count_contribs idx c f0 (combinedFeatures pts cls)
    · rw [← hout]
      exact sortGroups_sorted g0

/-- C3 witness: one duplicated rendered Oak point plus the two-Oak cluster:
the Oak bucket holds the point once and the cluster twice, and the output is
sorted. -/
theorem C3_witness :
    ([Feature.point (TreePoint.mk 1 "Oak"), Feature.cluster 0, Feature.cluster 0].count
        (Feature.cluster 0) = 2)
    ∧ List.Sorted byCountDesc
        [("Oak", [Feature.point (TreePoint.mk 1 "Oak"), Feature.cluster 0,
          Feature.cluster 0])] := by
  have h := C3_aggregation idxDup [TreePoint.mk 1 "Oak", TreePoint.mk 1 "Oak"] [0]
    [("Oak", [Feature.point (TreePoint.mk 1 "Oak"), Feature.cluster 0, Feature.cluster 0])]
    (by rfl)
  constructor
  · have h2 := h.1 "Oak"
      [Feature.point (TreePoint.mk 1 "Oak"), Feature.cluster 0, Feature.cluster 0]
      (by simp) (Feature.cluster 0)
    exact h2.trans (by rfl)
  · exact h.2.1
